import Mathlib

/-!
Verification development for the version-resolution engine of the
`python-versions-pz` repository.  The definitions below are a shallow
embedding of `.github/scripts/get_python_version.py` (class
`PythonManifestParser`) and `.github/scripts/generate_partial_manifest.py`.
Python strings are modelled as `String`/`List Char`; machine integers do not
occur (Python ints are unbounded, modelled by `Nat`/`Int`).
-/

namespace PyVer

/-- Numeric value of a list of ASCII digit characters, most significant
first, as computed by Python `int(...)` on the matched digit group. -/
def readNatVal (ds : List Char) : Nat :=
  ds.foldl (fun a c => a * 10 + (c.toNat - 48)) 0

/-- The anchored-prefix match of the regex
`(\d+)\.(\d+)\.(\d+)` part of `re.match` in `parse_version`
(`get_python_version.py` line 37).  `\d` is modelled as ASCII digits.
Returns the three numeric groups and the remaining input after the patch
digits; `none` when the regex cannot match at the start of the string.
Greedy `\d+` followed by a literal `.` needs no backtracking: shortening a
maximal digit run puts a digit where `.` is required. -/
def matchVersionCore (s : List Char) : Option (Nat × Nat × Nat × List Char) :=
  let d1 := s.takeWhile Char.isDigit
  let r1 := s.dropWhile Char.isDigit
  if d1 = [] then none else
  match r1 with
  | '.' :: s2 =>
    let d2 := s2.takeWhile Char.isDigit
    let r2 := s2.dropWhile Char.isDigit
    if d2 = [] then none else
    match r2 with
    | '.' :: s3 =>
      let d3 := s3.takeWhile Char.isDigit
      let r3 := s3.dropWhile Char.isDigit
      if d3 = [] then none else
      some (readNatVal d1, readNatVal d2, readNatVal d3, r3)
    | _ => none
  | _ => none

/-- The group `([a-z]+)(?:\.|)(\d+)` of the `parse_version` regex, tried at
position `s` (after the optional hyphen).  The engine takes the maximal
lowercase run; the alternation `(?:\.|)` prefers the literal dot; `\d+`
needs at least one digit.  Backtracking a shorter letter run can never
succeed (the next character would be a lowercase letter, not a digit), so
this deterministic reading equals the regex semantics. -/
def parsePreAt (s : List Char) : Option (List Char × Nat) :=
  let letters := s.takeWhile Char.isLower
  let rest := s.dropWhile Char.isLower
  if letters = [] then none else
  match rest with
  | '.' :: r2 =>
    let ds := r2.takeWhile Char.isDigit
    if ds = [] then none else some (letters, readNatVal ds)
  | r2 =>
    let ds := r2.takeWhile Char.isDigit
    if ds = [] then none else some (letters, readNatVal ds)

/-- The optional group `(?:-?([a-z]+)(?:\.|)(\d+))?`: an optional hyphen is
consumed when present ('-' is not in `[a-z]`, so backtracking the `-?`
cannot rescue a failed inner match). -/
def parsePreOpt (s : List Char) : Option (List Char × Nat) :=
  match s with
  | '-' :: t => parsePreAt t
  | _ => parsePreAt s

/-- The dict `pre_order = {'': 0, 'rc': 1, 'beta': 2, 'alpha': 3}` with
`.get(pre, 4)` (`get_python_version.py` line 43/48). -/
def preOrder (st : List Char) : Int :=
  if st = [] then 0
  else if st = ['r', 'c'] then 1
  else if st = ['b', 'e', 't', 'a'] then 2
  else if st = ['a', 'l', 'p', 'h', 'a'] then 3
  else 4

/-- A parsed version key: the Python 5-tuple
`(major, minor, patch, -pre_order, -pre_num)`. -/
abbrev VKey : Type := Int × Int × Int × Int × Int

/-- `PythonManifestParser.parse_version`: regex-parse the string, defaulting
the pre-release group to `('', 0)` when it did not participate, and return
the comparison tuple.  Unmatched input gives `(0, 0, 0, 0, 0)`. -/
def parse_version (v : String) : VKey :=
  match matchVersionCore v.data with
  | none => ((0 : Int), 0, 0, 0, 0)
  | some (M, m, p, rest) =>
    match parsePreOpt rest with
    | none => ((M : Int), (m : Int), (p : Int), 0, 0)
    | some (st, n) => ((M : Int), (m : Int), (p : Int), -preOrder st, -(n : Int))

/-- Three-way integer comparison, as used by Python `<`/`>` on ints. -/
def intCmp (a b : Int) : Ordering :=
  if a < b then Ordering.lt else if b < a then Ordering.gt else Ordering.eq

/-- Python tuple comparison on 5-tuples: lexicographic. -/
def keyCmp (x y : VKey) : Ordering :=
  ((((intCmp x.1 y.1).then (intCmp x.2.1 y.2.1)).then
      (intCmp x.2.2.1 y.2.2.1)).then
      (intCmp x.2.2.2.1 y.2.2.2.1)).then
      (intCmp x.2.2.2.2 y.2.2.2.2)

/-- `PythonManifestParser.version_compare`: `(pa > pb) - (pa < pb)` on the
parsed keys, i.e. 1 / -1 / 0. -/
def version_compare (a b : String) : Int :=
  match keyCmp (parse_version a) (parse_version b) with
  | Ordering.gt => 1
  | Ordering.lt => -1
  | Ordering.eq => 0

/-- Python `sub in s` substring test. -/
def containsSub (sub : List Char) : List Char → Bool
  | [] => sub.isPrefixOf ([] : List Char)
  | c :: t => sub.isPrefixOf (c :: t) || containsSub sub t

/-- Python `s.endswith(suf)`. -/
def listEndsWith (l suf : List Char) : Bool :=
  suf.isSuffixOf l

/-- `PythonManifestParser.is_alpha`. -/
def is_alpha (v : String) : Bool :=
  listEndsWith v.data "alpha".data ||
    containsSub "-alpha.".data v.data || containsSub "-alpha".data v.data

/-- `PythonManifestParser.is_beta`. -/
def is_beta (v : String) : Bool :=
  listEndsWith v.data "beta".data ||
    containsSub "-beta.".data v.data || containsSub "-beta".data v.data

/-- `PythonManifestParser.is_rc`. -/
def is_rc (v : String) : Bool :=
  listEndsWith v.data "rc".data ||
    containsSub "-rc.".data v.data || containsSub "-rc".data v.data

/-- `PythonManifestParser.is_stable`: `not (is_alpha or is_beta or is_rc)`. -/
def is_stable (v : String) : Bool :=
  !(is_alpha v || is_beta v || is_rc v)

/-- The four stability classes of the three-stage scheme. -/
inductive Stage where
  | stable
  | alpha
  | beta
  | rc
deriving DecidableEq

/-- The classification made by the `if`/`elif` chain of
`filter_versions` (`get_python_version.py` lines 89-96): the predicates are
tried in the fixed order alpha, beta, rc, else stable; first match wins. -/
def classify (v : String) : Stage :=
  if is_alpha v then Stage.alpha
  else if is_beta v then Stage.beta
  else if is_rc v then Stage.rc
  else Stage.stable

/-- Semantics of the regex produced by
`re.escape(pattern).replace(r'\*', '.*')` with `re.fullmatch`
(`version_matches_filter`, `get_python_version.py` lines 103-107): every
non-`*` pattern character is literal, each `*` becomes `.*` (zero or more
characters other than newline, since Python `.` excludes `'\n'`), and the
whole string must be consumed. -/
def globMatchFuel : Nat → List Char → List Char → Bool
  | 0, _, _ => false
  | Nat.succ fuel, pat, s =>
    match pat, s with
    | [], s => s.isEmpty
    | '*' :: ps, [] => globMatchFuel fuel ps []
    | '*' :: ps, c :: cs =>
      globMatchFuel fuel ps (c :: cs) ||
        ((c != '\n') && globMatchFuel fuel ('*' :: ps) cs)
    | _ :: _, [] => false
    | p :: ps, c :: cs => (p == c) && globMatchFuel fuel ps cs

/-- Entry point for `globMatchFuel`: every recursive step strictly
decreases `pat.length + s.length`, so this fuel always suffices and the
fuel-free semantics described above is obtained. -/
def globMatch (pat s : List Char) : Bool :=
  globMatchFuel (pat.length + s.length + 1) pat s

/-- `PythonManifestParser.version_matches_filter`. -/
def version_matches_filter (version pat : String) : Bool :=
  globMatch pat.data version.data

/-- A manifest entry as consulted by `filter_versions`: the code reads only
`entry.get("version")` (absent key modelled as `none`; Python's falsiness
test also drops the empty string) and never touches the `stable` field,
which is carried here exactly to express that independence. -/
structure ManifestEntry where
  version : Option String
  stable : Bool
deriving DecidableEq

/-- The `release_types` argument of `filter_versions`: Python allows
omitting it (`None`), passing a single string, or passing a list. -/
inductive RTArg where
  | omitted
  | single (s : String)
  | many (ts : List String)
deriving DecidableEq

/-- Lines 70-75 of `get_python_version.py`: `None` defaults to
`['stable']`; a lone string is wrapped into a one-element list. -/
def normalizeReleaseTypes : RTArg → List String
  | RTArg.omitted => ["stable"]
  | RTArg.single s => [s]
  | RTArg.many ts => ts

/-- The per-entry decision of the loop body of `filter_versions`
(lines 83-96): skip a falsy version, else run the `if`/`elif` chain over
the include flags (`'alpha' in release_types`, ...) and the classification
predicates. -/
def versionDecision (rts : List String) (ov : Option String) : Option String :=
  match ov with
  | none => none
  | some v =>
    if v = "" then none
    else if rts.contains "alpha" && is_alpha v then some v
    else if rts.contains "beta" && is_beta v then some v
    else if rts.contains "rc" && is_rc v then some v
    else if rts.contains "stable" && is_stable v then some v
    else none

/-- `PythonManifestParser.filter_versions` (lines 58-101): normalise
`release_types`, collect the versions accepted by the chain, then apply the
glob filter when `version_filter` is truthy (a `None` or empty pattern
filters nothing). -/
def filter_versions (manifest : List ManifestEntry) (release_types : RTArg)
    (version_filter : Option String) : List String :=
  let rts := normalizeReleaseTypes release_types
  let versions := manifest.filterMap (fun e => versionDecision rts e.version)
  match version_filter with
  | none => versions
  | some pat =>
    if pat = "" then versions
    else versions.filter (fun v => version_matches_filter v pat)

/-- `PREFIXES` of `generate_partial_manifest.py`. -/
def PREFIXES : List (List Char) :=
  ["python-".data, "trivy-python-".data]

/-- `SUFFIXES` of `generate_partial_manifest.py` (order matters:
`.sbom.json` is tried before `.json`). -/
def SUFFIXES : List (List Char) :=
  [".tar.gz".data, ".sbom.json".data, ".json".data, ".log".data]

/-- `strip_known_wrappers`: drop the first matching known leading wrapper
and the first matching known trailing wrapper (each loop `break`s at its
first hit). -/
def strip_known_wrappers (filename : List Char) : List Char :=
  let c1 :=
    match PREFIXES.find? (fun p => p.isPrefixOf filename) with
    | some p => filename.drop p.length
    | none => filename
  match SUFFIXES.find? (fun s => s.isSuffixOf c1) with
  | some s => c1.take (c1.length - s.length)
  | none => c1

/-- Python `str.split(sep)` for a single-character separator:
`"".split("-") == [""]`, separators delimit possibly-empty fields. -/
def splitOnChar (sep : Char) : List Char → List (List Char)
  | [] => [[]]
  | c :: cs =>
    if c = sep then [] :: splitOnChar sep cs
    else
      match splitOnChar sep cs with
      | [] => [[c]]
      | t :: ts => (c :: t) :: ts

/-- The record returned by `parse_filename`. -/
structure ParsedAsset where
  version : String
  platform : String
  platform_version : String
  arch : String
deriving DecidableEq

/-- `parse_filename` of `generate_partial_manifest.py` (lines 48-60):
strip the known wrappers, split on `-`, require at least 4 fields, and
take the first four as version/platform/platform_version/arch. -/
def parse_filename (filename : String) : Option ParsedAsset :=
  let parts := splitOnChar '-' (strip_known_wrappers filename.data)
  if parts.length < 4 then none
  else
    some { version := String.mk (parts.getD 0 []),
           platform := String.mk (parts.getD 1 []),
           platform_version := String.mk (parts.getD 2 []),
           arch := String.mk (parts.getD 3 []) }

/-- Python's `str.strip()` whitespace set (ASCII part): the truthiness test
`not url.strip()` holds exactly when every character is such whitespace. -/
def isPySpace (c : Char) : Bool :=
  c = ' ' || c = '\t' || c = '\n' || c = '\r' || c = '\x0b' || c = '\x0c'

/-- `validate_download_url` of `generate_partial_manifest.py`
(lines 10-31): reject empty/blank URLs, require the
`https://github.com/` scheme-and-host and then the
`https://github.com/{owner}/{repo}/releases/download/` base.  The `tag`
and `filename` parameters are accepted but never inspected. -/
def validate_download_url (url owner repo tag filename : String) : Bool :=
  if url.data.all isPySpace then false
  else if !("https://github.com/".data.isPrefixOf url.data) then false
  else
    let expected_base :=
      "https://github.com/" ++ owner ++ "/" ++ repo ++ "/releases/download/"
    expected_base.data.isPrefixOf url.data

example : version_matches_filter "3.13.5" "3.13.*" = true := by decide
example : version_matches_filter "3.13.5" "3.*.5" = true := by decide
example : version_matches_filter "3.13.5" "3.12.*" = false := by decide
example : parse_filename "python-3.13.3-linux-22.04-ppc64le.tar.gz" =
    some ⟨"3.13.3", "linux", "22.04", "ppc64le"⟩ := by decide
example : parse_filename "python-3.13.3-linux.tar.gz" = none := by decide
example : validate_download_url
    "https://github.com/IBM/python-versions-pz/releases/download/untagged-8a86d/python-3.13.3-linux-22.04-ppc64le.tar.gz"
    "IBM" "python-versions-pz" "v3.13.3-1"
    "python-3.13.3-linux-22.04-ppc64le.tar.gz" = true := by decide

/-- Skip the optional literal dot between the stage letters and the
stage number. -/
def afterDot : List Char → List Char
  | '.' :: r2 => r2
  | r => r

/-- Variant of `parsePreAt` that additionally demands the whole input be
consumed: after the maximal letter run, the optional dot and the maximal
digit run, nothing may remain. -/
def parsePreAtFull (s : List Char) : Option (List Char × Nat) :=
  match parsePreAt s with
  | none => none
  | some x =>
    if (afterDot (s.dropWhile Char.isLower)).dropWhile Char.isDigit = []
    then some x else none

/-- Whole-input variant of `parsePreOpt`. -/
def parsePreFull (s : List Char) : Option (List Char × Nat) :=
  match s with
  | '-' :: t => parsePreAtFull t
  | _ => parsePreAtFull s

/-- The semantic content of a version string: numerals and stage as
denoted, independent of spelling variants (leading hyphen or dot of the
stage part, leading zeros of the numerals). -/
structure VParts where
  major : Nat
  minor : Nat
  patch : Nat
  stage : List Char
  num : Nat
deriving DecidableEq

/-- Full-match reading of the sub-grammar on which `parse_version`'s
pre-release group actually participates: the entire string must be
`MAJOR.MINOR.PATCH`, optionally followed by `-?STAGE.?N` with a NUMERIC
sub-ordinal `N`.  The record is the denoted content.  Note this is
narrower than the set of strings the classifier treats as versions:
a bare-stage spelling such as `3.11.0-rc` (no number) is rejected here,
because the regex backtracks the optional group out of it and
`parse_version` keys it exactly like the stable `3.11.0`. -/
def parseExact (v : String) : Option VParts :=
  match matchVersionCore v.data with
  | none => none
  | some (M, m, p, rest) =>
    if rest = [] then some ⟨M, m, p, [], 0⟩
    else
      match parsePreFull rest with
      | none => none
      | some (st, n) => some ⟨M, m, p, st, n⟩

/-- The stage spellings the code's `pre_order` dict knows: stable (empty),
rc, beta, alpha. -/
def knownStages : List (List Char) :=
  [[], ['r', 'c'], ['b', 'e', 't', 'a'], ['a', 'l', 'p', 'h', 'a']]

/-- The key `parse_version` computes for a string whose exact parse is
`vp`. -/
def keyOf (vp : VParts) : VKey :=
  ((vp.major : Int), (vp.minor : Int), (vp.patch : Int),
    -preOrder vp.stage, -(vp.num : Int))

example : parseExact "3.9.0-rc.1" = some ⟨3, 9, 0, ['r', 'c'], 1⟩ := by decide
example : parseExact "3.9.0rc1" = some ⟨3, 9, 0, ['r', 'c'], 1⟩ := by decide
example : parseExact "3.9.0.5" = none := by decide
example : parseExact "3.9.0-rc" = none := by decide
example : parseExact "3.9.0" = some ⟨3, 9, 0, [], 0⟩ := by decide

theorem parsePreAtFull_sub (s : List Char) (x : List Char × Nat)
    (h : parsePreAtFull s = some x) : parsePreAt s = some x := by
  unfold parsePreAtFull at h
  cases hp : parsePreAt s with
  | none => rw [hp] at h; exact absurd h (by simp)
  | some y =>
    rw [hp] at h
    simp only at h
    split at h
    · exact h
    · exact absurd h (by simp)

theorem parsePreFull_sub (s : List Char) (x : List Char × Nat)
    (h : parsePreFull s = some x) : parsePreOpt s = some x := by
  unfold parsePreFull at h
  unfold parsePreOpt
  split at h
  · exact parsePreAtFull_sub _ _ h
  · exact parsePreAtFull_sub _ _ h

theorem opt_pair_fst {X st : List Char} {v n : Nat}
    (h : some (X, v) = some (st, n)) : X = st :=
  congrArg (fun o => (o.getD ([], 0)).1) h

theorem parsePreAt_stage_ne_nil (s : List Char) (st : List Char) (n : Nat)
    (h : parsePreAt s = some (st, n)) : st ≠ [] := by
  unfold parsePreAt at h
  by_cases hl : s.takeWhile Char.isLower = []
  · simp [hl] at h
  · simp only [hl, if_false] at h
    split at h <;> split at h <;>
      first
      | exact Option.noConfusion h
      | exact fun hn => hl (by rw [opt_pair_fst h, hn])

theorem parsePreAtFull_stage_ne_nil (s : List Char) (st : List Char) (n : Nat)
    (h : parsePreAtFull s = some (st, n)) : st ≠ [] :=
  parsePreAt_stage_ne_nil s st n (parsePreAtFull_sub s (st, n) h)

/-- `parse_version` on a string accepted by the exact grammar computes
exactly the key of its semantic content. -/
theorem parse_version_exact (v : String) (vp : VParts)
    (h : parseExact v = some vp) : parse_version v = keyOf vp := by
  unfold parseExact at h
  unfold parse_version
  cases hm : matchVersionCore v.data with
  | none => rw [hm] at h; exact absurd h (by simp)
  | some q =>
    obtain ⟨M, m, p, rest⟩ := q
    rw [hm] at h
    simp only at h ⊢
    by_cases hr : rest = []
    · subst hr
      rw [if_pos rfl] at h
      injection h with h
      subst h
      simp [parsePreOpt, parsePreAt, keyOf, preOrder]
    · rw [if_neg hr] at h
      cases hp : parsePreFull rest with
      | none => rw [hp] at h; exact absurd h (by simp)
      | some y =>
        obtain ⟨st, n⟩ := y
        rw [hp] at h
        injection h with h
        subst h
        rw [parsePreFull_sub rest (st, n) hp]
        rfl

/-- When the exact parse yields the empty (stable) stage, the stage number
is zero: the pre-release group only matches with a nonempty letter run. -/
theorem parseExact_stage_nil (v : String) (vp : VParts)
    (h : parseExact v = some vp) (hst : vp.stage = []) : vp.num = 0 := by
  unfold parseExact at h
  cases hm : matchVersionCore v.data with
  | none => rw [hm] at h; exact absurd h (by simp)
  | some q =>
    obtain ⟨M, m, p, rest⟩ := q
    rw [hm] at h
    simp only at h
    by_cases hr : rest = []
    · subst hr
      rw [if_pos rfl] at h
      injection h with h
      subst h
      rfl
    · rw [if_neg hr] at h
      cases hp : parsePreFull rest with
      | none => rw [hp] at h; exact absurd h (by simp)
      | some y =>
        obtain ⟨st, n⟩ := y
        rw [hp] at h
        injection h with h
        subst h
        exfalso
        unfold parsePreFull at hp
        split at hp
        · exact parsePreAtFull_stage_ne_nil _ _ _ hp hst
        · exact parsePreAtFull_stage_ne_nil _ _ _ hp hst

/-- The first three components of any parsed key are nonnegative: they are
either literal zeros or casts of natural numbers. -/
theorem parse_version_nonneg (v : String) :
    0 ≤ (parse_version v).1 ∧ 0 ≤ (parse_version v).2.1 ∧
      0 ≤ (parse_version v).2.2.1 := by
  unfold parse_version
  split
  · exact ⟨le_refl 0, le_refl 0, le_refl 0⟩
  · split <;>
      exact ⟨Int.natCast_nonneg _, Int.natCast_nonneg _, Int.natCast_nonneg _⟩

theorem intCmp_self (a : Int) : intCmp a a = Ordering.eq := by
  simp [intCmp]

theorem intCmp_gt_of (a b : Int) (h : b < a) : intCmp a b = Ordering.gt := by
  unfold intCmp
  rw [if_neg (by omega), if_pos h]

theorem ord_eq_then (o : Ordering) : Ordering.eq.then o = o := rfl

theorem ord_gt_then (o : Ordering) : Ordering.gt.then o = Ordering.gt := rfl

theorem ord_lt_then (o : Ordering) : Ordering.lt.then o = Ordering.lt := rfl

/-- Lexicographic comparison of two keys agreeing on major/minor/patch is
settled by the fourth component when it differs. -/
theorem keyCmp_firstthree_eq (M m p a x b y : Int) (h : b < a) :
    keyCmp (M, m, p, a, x) (M, m, p, b, y) = Ordering.gt := by
  unfold keyCmp
  simp only [intCmp_self, ord_eq_then]
  rw [intCmp_gt_of a b h, ord_gt_then]

/-- A stage known to `pre_order` with a nonempty spelling ranks at least 1;
unknown stages rank 4. -/
theorem preOrder_pos (st : List Char) (h : st ≠ []) : 0 < preOrder st := by
  unfold preOrder
  split_ifs with h1 h2 h3 h4
  · exact absurd h1 h
  all_goals decide

/-- Lexicographic comparison of two keys agreeing on major/minor/patch is
`lt` when the fourth component is smaller. -/
theorem keyCmp_firstthree_eq_lt (M m p a x b y : Int) (h : a < b) :
    keyCmp (M, m, p, a, x) (M, m, p, b, y) = Ordering.lt := by
  unfold keyCmp
  simp only [intCmp_self, ord_eq_then]
  rw [show intCmp a b = Ordering.lt from by unfold intCmp; rw [if_pos h],
    ord_lt_then]

/-- `pre_order` is injective on the stage spellings it knows. -/
theorem preOrder_inj_known (sa sb : List Char)
    (ha : sa ∈ knownStages) (hb : sb ∈ knownStages)
    (h : preOrder sa = preOrder sb) : sa = sb := by
  simp only [knownStages, List.mem_cons, List.mem_singleton,
    List.not_mem_nil, or_false] at ha hb
  rcases ha with rfl | rfl | rfl | rfl <;> rcases hb with rfl | rfl | rfl | rfl <;>
    revert h <;> decide

/-- Any key with nonnegative first three components, at least one of them
nonzero, is lexicographically above the all-zero key. -/
theorem keyCmp_zero_lt_of (k : VKey) (h1 : 0 ≤ k.1) (h2 : 0 ≤ k.2.1)
    (h3 : 0 ≤ k.2.2.1)
    (hne : ¬(k.1 = 0 ∧ k.2.1 = 0 ∧ k.2.2.1 = 0)) :
    keyCmp ((0 : Int), 0, 0, 0, 0) k = Ordering.lt := by
  obtain ⟨c1, c2, c3, c4, c5⟩ := k
  simp only at h1 h2 h3 hne
  have hcase : (0 < c1) ∨ (c1 = 0 ∧ 0 < c2) ∨ (c1 = 0 ∧ c2 = 0 ∧ 0 < c3) := by
    omega
  unfold keyCmp
  dsimp only
  rcases hcase with hc | ⟨hc1, hc⟩ | ⟨hc1, hc2, hc⟩
  · rw [show intCmp 0 c1 = Ordering.lt from by unfold intCmp; rw [if_pos hc]]
    simp only [ord_lt_then]
  · subst hc1
    rw [intCmp_self, ord_eq_then,
      show intCmp 0 c2 = Ordering.lt from by unfold intCmp; rw [if_pos hc]]
    simp only [ord_lt_then]
  · subst hc1
    subst hc2
    rw [intCmp_self]
    simp only [ord_eq_then]
    rw [show intCmp 0 c3 = Ordering.lt from by unfold intCmp; rw [if_pos hc]]
    simp only [ord_lt_then]

/-- Two exactly-parsed strings with equal major/minor/patch compare `gt`
when the first one's stage has the strictly smaller `pre_order` rank. -/
theorem keyCmp_exact_stage_gt (a b : String) (vpa vpb : VParts)
    (ha : parseExact a = some vpa) (hb : parseExact b = some vpb)
    (h1 : vpa.major = vpb.major) (h2 : vpa.minor = vpb.minor)
    (h3 : vpa.patch = vpb.patch)
    (hord : preOrder vpa.stage < preOrder vpb.stage) :
    keyCmp (parse_version a) (parse_version b) = Ordering.gt := by
  rw [parse_version_exact a vpa ha, parse_version_exact b vpb hb]
  unfold keyOf
  rw [h1, h2, h3]
  exact keyCmp_firstthree_eq _ _ _ _ _ _ _ (by omega)

/-- C1 counterexample: the bare-stage spelling `3.11.0-rc` is a
pre-release — `is_rc` holds and `is_stable` fails — yet `parse_version`
keys it identically to the stable `3.11.0` (the regex backtracks the
stage group out when no numeric sub-ordinal follows), so the stable key
is NOT strictly greater than every pre-release key with equal
major/minor/patch: `version_compare "3.11.0" "3.11.0-rc" = 0`.  Bare rc
and beta spellings tie with each other the same way. -/
theorem stable_ties_bare_stage :
    is_rc "3.11.0-rc" = true ∧ is_stable "3.11.0-rc" = false ∧
    parse_version "3.11.0-rc" = parse_version "3.11.0" ∧
    version_compare "3.11.0" "3.11.0-rc" = 0 ∧
    version_compare "3.11.0-rc" "3.11.0-beta" = 0 := by
  decide

/-- C1 (amended): among version strings with equal major/minor/patch, a
stable spelling (no stage suffix) parses to a key strictly above any
pre-release spelling that carries a numeric sub-ordinal, and among such
pre-releases rc keys exceed beta keys, which exceed alpha keys;
bare-stage spellings with no sub-ordinal (e.g. `3.11.0-rc`) instead tie
with stable.  Concretely,
`3.11.0 > 3.11.0-rc.1 > 3.11.0-beta.2 > 3.11.0-alpha.1` under
`version_compare`. -/
theorem stable_stage_chain :
    (∀ a b vpa vpb, parseExact a = some vpa → parseExact b = some vpb →
      vpa.major = vpb.major → vpa.minor = vpb.minor → vpa.patch = vpb.patch →
      vpa.stage = [] → vpb.stage ≠ [] →
      keyCmp (parse_version a) (parse_version b) = Ordering.gt) ∧
    (∀ a b vpa vpb, parseExact a = some vpa → parseExact b = some vpb →
      vpa.major = vpb.major → vpa.minor = vpb.minor → vpa.patch = vpb.patch →
      vpa.stage = ['r', 'c'] → vpb.stage = ['b', 'e', 't', 'a'] →
      keyCmp (parse_version a) (parse_version b) = Ordering.gt) ∧
    (∀ a b vpa vpb, parseExact a = some vpa → parseExact b = some vpb →
      vpa.major = vpb.major → vpa.minor = vpb.minor → vpa.patch = vpb.patch →
      vpa.stage = ['b', 'e', 't', 'a'] → vpb.stage = ['a', 'l', 'p', 'h', 'a'] →
      keyCmp (parse_version a) (parse_version b) = Ordering.gt) ∧
    version_compare "3.11.0" "3.11.0-rc.1" = 1 ∧
    version_compare "3.11.0-rc.1" "3.11.0-beta.2" = 1 ∧
    version_compare "3.11.0-beta.2" "3.11.0-alpha.1" = 1 := by
  refine ⟨?_, ?_, ?_, by decide, by decide, by decide⟩
  · intro a b vpa vpb ha hb h1 h2 h3 hsa hsb
    refine keyCmp_exact_stage_gt a b vpa vpb ha hb h1 h2 h3 ?_
    rw [hsa]
    exact preOrder_pos _ hsb
  · intro a b vpa vpb ha hb h1 h2 h3 hsa hsb
    exact keyCmp_exact_stage_gt a b vpa vpb ha hb h1 h2 h3
      (by rw [hsa, hsb]; decide)
  · intro a b vpa vpb ha hb h1 h2 h3 hsa hsb
    exact keyCmp_exact_stage_gt a b vpa vpb ha hb h1 h2 h3
      (by rw [hsa, hsb]; decide)

theorem stable_stage_chain_witness :
    keyCmp (parse_version "3.11.0") (parse_version "3.11.0-rc.1") =
      Ordering.gt ∧
    keyCmp (parse_version "3.11.0-rc.1") (parse_version "3.11.0-beta.2") =
      Ordering.gt ∧
    keyCmp (parse_version "3.11.0-beta.2") (parse_version "3.11.0-alpha.1") =
      Ordering.gt :=
  ⟨stable_stage_chain.1 "3.11.0" "3.11.0-rc.1"
      ⟨3, 11, 0, [], 0⟩ ⟨3, 11, 0, ['r', 'c'], 1⟩
      (by decide) (by decide) rfl rfl rfl rfl (by decide),
    stable_stage_chain.2.1 "3.11.0-rc.1" "3.11.0-beta.2"
      ⟨3, 11, 0, ['r', 'c'], 1⟩ ⟨3, 11, 0, ['b', 'e', 't', 'a'], 2⟩
      (by decide) (by decide) rfl rfl rfl rfl rfl,
    stable_stage_chain.2.2.1 "3.11.0-beta.2" "3.11.0-alpha.1"
      ⟨3, 11, 0, ['b', 'e', 't', 'a'], 2⟩ ⟨3, 11, 0, ['a', 'l', 'p', 'h', 'a'], 1⟩
      (by decide) (by decide) rfl rfl rfl rfl rfl⟩

/-- C2: the code orders `3.9.0-rc.2` strictly BELOW `3.9.0-rc.1`: the
parsed keys negate the stage sub-ordinal (`-pre_num`), so a higher rc
number yields a smaller key and `version_compare` returns `-1`, contrary
to "higher numeric sub-ordinal is more recent". -/
theorem rc_subordinal_eval :
    version_compare "3.9.0-rc.2" "3.9.0-rc.1" = -1 ∧
    keyCmp (parse_version "3.9.0-rc.2") (parse_version "3.9.0-rc.1") =
      Ordering.lt ∧
    parse_version "3.9.0-rc.1" = ((3 : Int), 9, 0, -1, -1) ∧
    parse_version "3.9.0-rc.2" = ((3 : Int), 9, 0, -1, -2) := by
  decide

/-- C3 counterexample: a URL under the correct
`https://github.com/{owner}/{repo}/releases/download/` base whose tag
segment is an ephemeral `untagged-` substitute (and which nowhere contains
the supplied tag) is ACCEPTED by `validate_download_url`, contradicting
the claim that such URLs are rejected and that the exact tag segment is
required. -/
theorem validate_url_untagged_accepted :
    validate_download_url
      "https://github.com/IBM/python-versions-pz/releases/download/untagged-8a86d/python-3.13.3-linux-22.04-ppc64le.tar.gz"
      "IBM" "python-versions-pz" "v3.13.3-1"
      "python-3.13.3-linux-22.04-ppc64le.tar.gz" = true ∧
    containsSub "untagged-".data
      "https://github.com/IBM/python-versions-pz/releases/download/untagged-8a86d/python-3.13.3-linux-22.04-ppc64le.tar.gz".data = true ∧
    containsSub "v3.13.3-1".data
      "https://github.com/IBM/python-versions-pz/releases/download/untagged-8a86d/python-3.13.3-linux-22.04-ppc64le.tar.gz".data = false := by
  decide

/-- C3 (amended): `validate_download_url` ignores its `tag` and `filename`
arguments entirely; it returns `true` exactly when the URL has some
non-whitespace character and starts with
`https://github.com/{owner}/{repo}/releases/download/`.  In particular it
accepts `untagged-` substitute URLs under that base; the permanent tagged
URL is instead reconstructed downstream by `build_manifest_entries`. -/
theorem validate_url_characterization :
    ∀ url owner repo tag filename tag2 filename2,
      validate_download_url url owner repo tag filename =
        validate_download_url url owner repo tag2 filename2 ∧
      (validate_download_url url owner repo tag filename = true ↔
        (url.data.all isPySpace = false ∧
          (("https://github.com/" ++ owner ++ "/" ++ repo ++
            "/releases/download/").data).isPrefixOf url.data = true)) := by
  intro url owner repo tag filename tag2 filename2
  refine ⟨rfl, ?_⟩
  unfold validate_download_url
  split_ifs with h1 h2
  · simp [h1]
  · have h2f : ("https://github.com/".data).isPrefixOf url.data = false := by
      cases hx : ("https://github.com/".data).isPrefixOf url.data
      · rfl
      · exact absurd h2 (by rw [hx]; decide)
    constructor
    · intro hf
      exact absurd hf (by decide)
    · rintro ⟨-, hb⟩
      exfalso
      have hbig : (("https://github.com/" ++ owner ++ "/" ++ repo ++
          "/releases/download/").data) =
          "https://github.com/".data ++ (owner.data ++ "/".data ++
            repo.data ++ "/releases/download/".data) := by
        simp [String.data_append, List.append_assoc]
      rw [List.isPrefixOf_iff_prefix, hbig] at hb
      have hgh : ("https://github.com/".data).isPrefixOf url.data = true := by
        rw [List.isPrefixOf_iff_prefix]
        exact (List.prefix_append _ _).trans hb
      rw [hgh] at h2f
      exact Bool.noConfusion h2f
  · have h1f : url.data.all isPySpace = false := by
      cases hx : url.data.all isPySpace
      · rfl
      · exact absurd hx h1
    simp [h1f]

/-- C4: the classification predicates, applied in the fixed priority order
alpha, beta, rc, else stable (the `if`/`elif` chain of `filter_versions`),
assign every string exactly one class, and `is_stable` holds exactly when
none of `is_alpha`, `is_beta`, `is_rc` does. -/
theorem classify_partition :
    ∀ v, is_stable v = !(is_alpha v || is_beta v || is_rc v) ∧
      (classify v = Stage.alpha ↔ is_alpha v = true) ∧
      (classify v = Stage.beta ↔ (is_alpha v = false ∧ is_beta v = true)) ∧
      (classify v = Stage.rc ↔
        (is_alpha v = false ∧ is_beta v = false ∧ is_rc v = true)) ∧
      (classify v = Stage.stable ↔ is_stable v = true) := by
  intro v
  unfold classify is_stable
  cases ha : is_alpha v <;> cases hb : is_beta v <;> cases hc : is_rc v <;>
    simp [ha, hb, hc]

/-- The sample manifest of the spec's testable property: versions
3.13.0, 3.12.5, 3.8.10 stable; an rc, a beta and an alpha pre-release. -/
def c5Manifest : List ManifestEntry :=
  [⟨some "3.13.0", true⟩, ⟨some "3.12.5", true⟩, ⟨some "3.11.0-rc.1", false⟩,
    ⟨some "3.10.0-beta.2", false⟩, ⟨some "3.9.0-alpha.1", false⟩,
    ⟨some "3.8.10", true⟩]

/-- C5: `filter_versions` with `release_types` omitted behaves as with
`['stable']`; a single string argument behaves as a one-element list; the
result depends only on the entries' version strings (the `stable` field is
never consulted); and on the sample manifest the default call returns
exactly 3.13.0, 3.12.5 and 3.8.10. -/
theorem filter_versions_spec :
    (∀ m vf, filter_versions m RTArg.omitted vf =
      filter_versions m (RTArg.many ["stable"]) vf) ∧
    (∀ m s vf, filter_versions m (RTArg.single s) vf =
      filter_versions m (RTArg.many [s]) vf) ∧
    (∀ m m2 rt vf,
      m.map ManifestEntry.version = m2.map ManifestEntry.version →
      filter_versions m rt vf = filter_versions m2 rt vf) ∧
    filter_versions c5Manifest RTArg.omitted none =
      ["3.13.0", "3.12.5", "3.8.10"] := by
  refine ⟨fun m vf => rfl, fun m s vf => rfl, ?_, by decide⟩
  intro m m2 rt vf h
  have key : List.filterMap
      (fun e => versionDecision (normalizeReleaseTypes rt) e.version) m
      = List.filterMap
        (fun e => versionDecision (normalizeReleaseTypes rt) e.version) m2 := by
    have e1 := List.filterMap_map ManifestEntry.version
      (versionDecision (normalizeReleaseTypes rt)) m
    have e2 := List.filterMap_map ManifestEntry.version
      (versionDecision (normalizeReleaseTypes rt)) m2
    rw [show (fun e : ManifestEntry =>
          versionDecision (normalizeReleaseTypes rt) e.version)
        = versionDecision (normalizeReleaseTypes rt) ∘ ManifestEntry.version
        from rfl, ← e1, ← e2, h]
  simp only [filter_versions]
  rw [key]

theorem filter_versions_spec_witness :
    filter_versions
      [⟨some "3.13.0", true⟩, ⟨some "3.11.0-rc.1", true⟩]
      RTArg.omitted none =
    filter_versions
      [⟨some "3.13.0", false⟩, ⟨some "3.11.0-rc.1", false⟩]
      RTArg.omitted none :=
  filter_versions_spec.2.2.1
    [⟨some "3.13.0", true⟩, ⟨some "3.11.0-rc.1", true⟩]
    [⟨some "3.13.0", false⟩, ⟨some "3.11.0-rc.1", false⟩]
    RTArg.omitted none rfl

/-- C6 counterexample: the zero key of a malformed string is NOT a lower
bound on parseable keys: `0.0.0-rc.1` matches the version grammar, yet its
key sorts strictly below `(0,0,0,0,0)`. -/
theorem zero_key_not_minimal :
    matchVersionCore "not-a-version".data = none ∧
    parseExact "0.0.0-rc.1" = some ⟨0, 0, 0, ['r', 'c'], 1⟩ ∧
    keyCmp (parse_version "not-a-version") (parse_version "0.0.0-rc.1") =
      Ordering.gt := by
  decide

/-- C6 (amended): `parse_version` is total; any input the version regex
does not match yields the zero key `(0,0,0,0,0)`; that key is less than or
equal to the key of every parseable version string EXCEPT pre-releases
whose major, minor and patch are all zero, which sort strictly below it. -/
theorem zero_key_floor :
    (∀ v, matchVersionCore v.data = none →
      parse_version v = ((0 : Int), 0, 0, 0, 0)) ∧
    (∀ v, ¬((parse_version v).1 = 0 ∧ (parse_version v).2.1 = 0 ∧
        (parse_version v).2.2.1 = 0) →
      keyCmp ((0 : Int), 0, 0, 0, 0) (parse_version v) = Ordering.lt) ∧
    (∀ v st n, parseExact v = some ⟨0, 0, 0, st, n⟩ → st ≠ [] →
      keyCmp (parse_version v) ((0 : Int), 0, 0, 0, 0) = Ordering.lt) := by
  refine ⟨?_, ?_, ?_⟩
  · intro v h
    unfold parse_version
    rw [h]
  · intro v h
    exact keyCmp_zero_lt_of (parse_version v) (parse_version_nonneg v).1
      (parse_version_nonneg v).2.1 (parse_version_nonneg v).2.2 h
  · intro v st n h hst
    rw [parse_version_exact v _ h]
    unfold keyOf
    simp only [Nat.cast_zero]
    apply keyCmp_firstthree_eq_lt
    have := preOrder_pos st hst
    omega

theorem zero_key_floor_witness :
    parse_version "nope" = ((0 : Int), 0, 0, 0, 0) ∧
    keyCmp ((0 : Int), 0, 0, 0, 0) (parse_version "1.2.3") = Ordering.lt ∧
    keyCmp (parse_version "0.0.0-rc.1") ((0 : Int), 0, 0, 0, 0) =
      Ordering.lt :=
  ⟨zero_key_floor.1 "nope" (by decide),
    zero_key_floor.2.1 "1.2.3" (by decide),
    zero_key_floor.2.2 "0.0.0-rc.1" ['r', 'c'] 1 (by decide) (by decide)⟩

/-- C7 counterexample: lexically different strings denoting DIFFERENT
releases can share a key.  `3.11.0` (stable to the classifier) and
`3.11.0-rc` (an rc to the classifier) parse to the same key, because the
regex drops a stage with no numeric sub-ordinal; and the v-prefixed
spellings `v3.11.0` and `v3.12.0` — distinct releases — both collapse to
the zero key, since the regex accepts no leading `v`. -/
theorem key_collision_different_release :
    parse_version "3.11.0" = parse_version "3.11.0-rc" ∧
    classify "3.11.0" = Stage.stable ∧ classify "3.11.0-rc" = Stage.rc ∧
    is_stable "3.11.0" = true ∧ is_stable "3.11.0-rc" = false ∧
    parse_version "v3.11.0" = parse_version "v3.12.0" := by
  decide

/-- C7 (amended): restricted to strings fully matching the key grammar
with a numeric sub-ordinal and a stage the code's `pre_order` knows,
equal parsed keys occur exactly for strings denoting the same release
(same numerals, same stage, same stage number — e.g. `rc.1` vs `rc1`);
outside that domain lexically different strings may collide (bare-stage
spellings tie with stable, unmatched strings all take the zero key).
`version_compare` consults only the parsed keys, never the raw
strings. -/
theorem key_equality_same_release :
    (∀ a b vpa vpb, parseExact a = some vpa → parseExact b = some vpb →
      vpa.stage ∈ knownStages → vpb.stage ∈ knownStages →
      (parse_version a = parse_version b ↔ vpa = vpb)) ∧
    (∀ a b c, parse_version a = parse_version b →
      version_compare a c = version_compare b c ∧
      version_compare c a = version_compare c b) := by
  constructor
  · intro a b vpa vpb ha hb hka hkb
    obtain ⟨A1, A2, A3, As, An⟩ := vpa
    obtain ⟨B1, B2, B3, Bs, Bn⟩ := vpb
    simp only at hka hkb
    rw [parse_version_exact a _ ha, parse_version_exact b _ hb]
    unfold keyOf
    simp only [Prod.mk.injEq, VParts.mk.injEq]
    constructor
    · rintro ⟨e1, e2, e3, e4, e5⟩
      refine ⟨by exact_mod_cast e1, by exact_mod_cast e2, by exact_mod_cast e3,
        preOrder_inj_known As Bs hka hkb (by omega), ?_⟩
      have : (An : Int) = (Bn : Int) := by omega
      exact_mod_cast this
    · rintro ⟨rfl, rfl, rfl, rfl, rfl⟩
      exact ⟨rfl, rfl, rfl, rfl, rfl⟩
  · intro a b c h
    unfold version_compare
    rw [h]
    exact ⟨rfl, rfl⟩

theorem key_equality_same_release_witness :
    parse_version "3.9.0-rc.1" = parse_version "3.9.0rc1" ∧
    version_compare "3.9.0-rc.1" "3.8.0" = version_compare "3.9.0rc1" "3.8.0" := by
  have h1 : parse_version "3.9.0-rc.1" = parse_version "3.9.0rc1" :=
    (key_equality_same_release.1 "3.9.0-rc.1" "3.9.0rc1"
      ⟨3, 9, 0, ['r', 'c'], 1⟩ ⟨3, 9, 0, ['r', 'c'], 1⟩
      (by decide) (by decide) (by decide) (by decide)).mpr rfl
  exact ⟨h1, (key_equality_same_release.2 "3.9.0-rc.1" "3.9.0rc1" "3.8.0" h1).1⟩

/-- C8: glob filtering is full-string matching with `*` as a multi-char
wildcard and all other pattern characters literal: `3.13.5` matches
`3.13.*` and `3.*.5` but not `3.12.*` nor `3.*.6`. -/
theorem glob_filter_examples :
    version_matches_filter "3.13.5" "3.13.*" = true ∧
    version_matches_filter "3.13.5" "3.*.5" = true ∧
    version_matches_filter "3.13.5" "3.12.*" = false ∧
    version_matches_filter "3.13.5" "3.*.6" = false := by
  decide

/-- C9: `parse_filename` strips one known leading and one known trailing
wrapper, splits on `-`, returns `none` exactly when fewer than 4 fields
remain, else the first four fields as version/platform/platform_version/
arch; concretely on the two spec examples. -/
theorem parse_filename_spec :
    (∀ f, (parse_filename f = none ↔
      (splitOnChar '-' (strip_known_wrappers f.data)).length < 4)) ∧
    parse_filename "python-3.13.3-linux-22.04-ppc64le.tar.gz" =
      some ⟨"3.13.3", "linux", "22.04", "ppc64le"⟩ ∧
    parse_filename "python-3.13.3-linux.tar.gz" = none := by
  refine ⟨?_, by decide, by decide⟩
  intro f
  simp only [parse_filename]
  split_ifs with h
  · simp [h]
  · simp [h]

/-- C10: a hyphen-less pre-release spelling such as `3.9.0rc1` is
classified stable by every predicate (so `is_stable` is true), while
`parse_version` still assigns it the pre-release stage rank, sorting it
strictly below the bare stable version with the same major/minor/patch;
likewise for `3.9.0beta2` and `3.9.0alpha1`. -/
theorem hyphenless_prerelease :
    (is_stable "3.9.0rc1" = true ∧ is_rc "3.9.0rc1" = false ∧
      classify "3.9.0rc1" = Stage.stable ∧
      parse_version "3.9.0rc1" = ((3 : Int), 9, 0, -1, -1) ∧
      keyCmp (parse_version "3.9.0") (parse_version "3.9.0rc1") =
        Ordering.gt) ∧
    (is_stable "3.9.0beta2" = true ∧ is_beta "3.9.0beta2" = false ∧
      parse_version "3.9.0beta2" = ((3 : Int), 9, 0, -2, -2) ∧
      keyCmp (parse_version "3.9.0") (parse_version "3.9.0beta2") =
        Ordering.gt) ∧
    (is_stable "3.9.0alpha1" = true ∧ is_alpha "3.9.0alpha1" = false ∧
      parse_version "3.9.0alpha1" = ((3 : Int), 9, 0, -3, -1) ∧
      keyCmp (parse_version "3.9.0") (parse_version "3.9.0alpha1") =
        Ordering.gt) := by
  decide

example : parse_version "3.13.0" = ((3 : Int), 13, 0, 0, 0) := by decide
example : parse_version "3.11.0-rc.1" = ((3 : Int), 11, 0, -1, -1) := by decide
example : parse_version "3.9.0rc1" = ((3 : Int), 9, 0, -1, -1) := by decide
example : parse_version "invalid" = ((0 : Int), 0, 0, 0, 0) := by decide
example : version_compare "3.11.0" "3.11.0-rc.1" = 1 := by decide
example : version_compare "3.9.0-rc.2" "3.9.0-rc.1" = -1 := by decide
example : is_stable "3.9.0rc1" = true := by decide
example : is_rc "3.11.0-rc.1" = true := by decide

end PyVer
